import Mathlib

/-!
Verification of the tabular-transformation core of the work-reports
pipeline.  Tables are shallowly embedded as a header (ordered list of
column names) together with row-major data; cell values model the
pandas scalar kinds that the pipeline manipulates (integers, floats as
exact rationals, strings, and NaN/None as `null`).  Each transform of
the source (`process_stock_report_df`, `price_to_float`,
`clean_prices_table`, `create_pivot_table`, `merge_tables`,
`move_columns`, `create_column`, `markup`) is embedded as a pure
function over this table type; file I/O performed by the source
functions is the specification's external collaborator and is not
modelled — the embeddings act on the in-memory table that the source
reads or would read.
-/

namespace WorkReports

/-- A table cell: pandas integer, float (modelled as an exact rational),
string, or missing value (NaN/None). -/
inductive Value where
  | int : Int → Value
  | num : Rat → Value
  | str : String → Value
  | null : Value
deriving DecidableEq, Repr

/-- Truncation of a rational toward zero, the semantics of a C-style
float-to-int cast (`numpy astype(int)`): `num.tdiv den` truncates toward
zero and the denominator is positive. -/
def ratTrunc (q : Rat) : Int := q.num.tdiv (q.den : Int)

/-- An in-memory table: ordered, named columns and row-major cell data. -/
structure Table where
  header : List String
  rows : List (List Value)
deriving DecidableEq, Repr

/-- Wellformedness of a table: column names are unique and every row has
one cell per column. -/
def Wf (t : Table) : Prop :=
  t.header.Nodup ∧ ∀ r ∈ t.rows, r.length = t.header.length

instance (t : Table) : Decidable (Wf t) := by
  unfold Wf; infer_instance

/-- Index of the first occurrence of a column name in a header (the
header length if absent), mirroring `list.index` / positional lookup. -/
def colIdx : List String → String → Nat
  | [], _ => 0
  | h :: t, c => if h = c then 0 else colIdx t c + 1

/-- The cell of a row at a named column; `null` when the column is absent
(positions past the row's end read as missing). -/
def getCell (header : List String) (r : List Value) (c : String) : Value :=
  r.getD (colIdx header c) Value.null

/-- A whole named column of a table. -/
def getCol (t : Table) (c : String) : List Value :=
  t.rows.map (fun r => getCell t.header r c)

/-- Column assignment (`df[c] = vals`): overwrite the column in place if
the name exists, otherwise append it as the last column. -/
def setCol (t : Table) (c : String) (vals : List Value) : Table :=
  if c ∈ t.header then
    ⟨t.header, List.zipWith (fun r v => r.set (colIdx t.header c) v) t.rows vals⟩
  else
    ⟨t.header ++ [c], List.zipWith (fun r v => r ++ [v]) t.rows vals⟩

/-- Removal of the cells of dropped columns from one row. -/
def dropRow (header : List String) (cols : List String) (r : List Value) : List Value :=
  ((header.zip r).filter (fun p => decide (p.1 ∉ cols))).map (fun p => p.2)

/-- Column drop (`df.drop(columns=cols)` restricted to existing names). -/
def dropColumns (t : Table) (cols : List String) : Table :=
  ⟨t.header.filter (fun h => decide (h ∉ cols)), t.rows.map (dropRow t.header cols)⟩

/-- Row filter keeping the rows whose cell at column `c` equals `v`
(`df[df[c] == v]` / `df.query`). -/
def filterRows (t : Table) (c : String) (v : Value) : Table :=
  ⟨t.header, t.rows.filter (fun r => decide (getCell t.header r c = v))⟩

/-- Column selection/reordering (`df[cols]`, `df.reindex(columns=cols)`):
cells of absent columns read as `null`, matching reindex's NaN fill. -/
def restrictCols (t : Table) (cols : List String) : Table :=
  ⟨cols, t.rows.map (fun r => cols.map (getCell t.header r))⟩

/-- Column renaming (`df.rename(columns=ren)`): every header name that is
a key of the rename list is replaced by its image. -/
def renameCols (t : Table) (ren : List (String × String)) : Table :=
  ⟨t.header.map (fun h => ((ren.lookup h).getD h)), t.rows⟩

/-- Errors of the transform layer, mirroring the exceptions the source
raises or logs: missing-column validation lists, a missing key/column
lookup (`KeyError`), a failed numeric cast (`ValueError` from
`astype`), an unsupported enum parameter (`ValueError`), and a Python
`TypeError` from an ill-formed call. -/
inductive TableError where
  | missingColumns : List String → TableError
  | keyNotFound : String → TableError
  | coercionError : String → TableError
  | valueError : String → TableError
  | typeError : String → TableError
deriving DecidableEq, Repr

/-! ## `utils/formatters.py` — `price_to_float` -/

/-- Decimal digits of the fractional part of a rational (most
significant first), up to the given fuel, trailing zeros omitted. -/
def fracLoop : Nat → Rat → String
  | 0, _ => ""
  | n + 1, r =>
    if r = 0 then ""
    else
      let r10 := r * 10
      let d : Int := ⌊r10⌋
      toString d ++ fracLoop n (r10 - (d : Rat))

/-- Decimal rendering of a rational the way Python renders the floats of
this pipeline (`str(12.5) = "12.5"`, `str(10.0) = "10.0"`); fractional
digits are produced to 12 places, enough for the decimal price data the
pipeline handles. -/
def ratDecimalStr (q : Rat) : String :=
  let sign := if q < 0 then "-" else ""
  let a := |q|
  let ip : Int := ⌊a⌋
  let fp := a - (ip : Rat)
  let frac := fracLoop 12 fp
  sign ++ toString ip ++ "." ++ (if frac = "" then "0" else frac)

/-- Python `str()` of a cell as `astype(str)` produces it: strings are
unchanged, integers and floats render decimally, NaN renders as
literal text nan. -/
def pyStr : Value → String
  | .str s => s
  | .int n => toString n
  | .num q => ratDecimalStr q
  | .null => "nan"

/-- Removal of every character that is not a digit or a decimal point,
the regex replace of `price_to_float`. -/
def stripNonNumeric (s : String) : String :=
  String.mk (s.toList.filter (fun ch => ch.isDigit || ch == '.'))

/-- Numeric value of a list of decimal digit characters. -/
def digitsToNat (cs : List Char) : Nat :=
  cs.foldl (fun a c => a * 10 + (c.toNat - 48)) 0

/-- Parse of one cleaned string by `pd.to_numeric`: an all-digit string
becomes an integer, a digit string with exactly one decimal point
becomes a float, anything else (in particular the empty string or a
string with several points) fails. -/
def parseNum (s : String) : Option Value :=
  let cs := s.toList
  if !cs.isEmpty && cs.all Char.isDigit then
    some (.int (digitsToNat cs : Nat))
  else if cs.count '.' == 1 && cs.all (fun c => c.isDigit || c == '.') && cs.length ≥ 2 then
    let ip := cs.takeWhile (fun c => c != '.')
    let fp := (cs.dropWhile (fun c => c != '.')).drop 1
    some (.num ((digitsToNat (ip ++ fp) : Rat) / (10 : Rat) ^ fp.length))
  else none

/-- Whether a cell is an integer. -/
def valueIsInt : Value → Bool
  | .int _ => true
  | _ => false

/-- Widening of an integer cell to a float cell (pandas dtype
unification when a column mixes integral and fractional parses). -/
def valueToNum : Value → Value
  | .int n => .num (n : Rat)
  | v => v

/-- One column pass of `price_to_float`: the column is cast to text and
stripped of non-numeric characters (first assignment of the source),
then `pd.to_numeric` is attempted on the result; if every cell parses
the column becomes numeric, otherwise the exception is caught and the
column is left holding the stripped strings produced by the first
assignment. -/
def convertCol (vs : List Value) : List Value :=
  let stripped := vs.map (fun v => stripNonNumeric (pyStr v))
  let parsed := stripped.map parseNum
  if parsed.all Option.isSome then
    let ps := parsed.map (fun o => o.getD Value.null)
    if ps.all valueIsInt then ps else ps.map valueToNum
  else stripped.map Value.str

/-- Processing of one named column by `price_to_float`: absent columns
are skipped with a warning. -/
def processPriceCol (t : Table) (c : String) : Table :=
  if c ∈ t.header then setCol t c (convertCol (getCol t c)) else t

/-- Embedding of `price_to_float` (utils/formatters.py): with no column
list the table is returned unchanged (warning only); otherwise each
named column present is cleaned and converted in order. -/
def priceToFloat (df : Table) (neededColumns : Option (List String)) : Table :=
  match neededColumns with
  | none => df
  | some cols => cols.foldl processPriceCol df

/-! ## `stock/stock.py` — `process_stock_report_df` -/

/-- Parse of a decimal integer string with optional leading minus sign,
as `astype(int)` accepts from object columns. -/
def parseIntStr (s : String) : Option Int :=
  let cs := s.toList
  match cs with
  | '-' :: rest =>
    if !rest.isEmpty && rest.all Char.isDigit then some (-(digitsToNat rest : Int)) else none
  | _ =>
    if !cs.isEmpty && cs.all Char.isDigit then some (digitsToNat cs : Nat) else none

/-- Semantics of `astype(int)` on one cell: integers pass through,
floats are silently truncated toward zero (the numpy C cast — no error
is raised on fractional values), integer-looking strings parse, any
other string and NaN raise. -/
def castInt : Value → Except TableError Value
  | .int n => .ok (.int n)
  | .num q => .ok (.int (ratTrunc q))
  | .str s =>
    match parseIntStr s with
    | some n => .ok (.int n)
    | none => .error (.coercionError s)
  | .null => .error (.coercionError "NaN")

/-- Cast of a whole column to integers, failing on the first bad cell. -/
def castColInt : List Value → Except TableError (List Value)
  | [] => .ok []
  | v :: vs => do
    let w ← castInt v
    let ws ← castColInt vs
    pure (w :: ws)

/-- The `.assign` step of `process_stock_report_df`: each listed column
is replaced by its integer cast; a missing column or a failed cast
raises (the source's `except` logs and re-raises). -/
def assignInts (t : Table) : List String → Except TableError Table
  | [] => .ok t
  | c :: cs =>
    if c ∈ t.header then do
      let vals ← castColInt (getCol t c)
      assignInts (setCol t c vals) cs
    else .error (.keyNotFound c)

/-- Default drop set of `process_stock_report_df`. -/
def defaultDropColumns : List String :=
  ["STOCK_UPDATE", "SIZE", "Subcategory", "Licence", "Barcode",
   "STOCK_WITHOUT_REZERVED", "REZERVED"]

/-- Embedding of `process_stock_report_df` (stock/stock.py): resolve the
`None` defaults, drop the listed columns that exist, filter rows whose
`Concept` cell equals the filter string, reset the row index (a no-op
on this representation), then cast each listed column to integer. -/
def processStockReportDf (df : Table) (conceptFilter : Option String)
    (columnsToDrop : Option (List String))
    (columnsToFormatAsInt : Option (List String)) : Except TableError Table :=
  let cf := conceptFilter.getD "OUTLET"
  let toDrop := columnsToDrop.getD defaultDropColumns
  let toInt := columnsToFormatAsInt.getD ["AVAILABLE"]
  let df1 := dropColumns df (toDrop.filter (fun c => decide (c ∈ df.header)))
  if "Concept" ∈ df1.header then
    assignInts (filterRows df1 "Concept" (.str cf)) toInt
  else .error (.keyNotFound "Concept")

/-! ## `prices/prices.py` — `clean_prices_table` (DataFrame variant) -/

/-- The filter-and-rename tail of `clean_prices_table`: validate that
`Plant` and every rename key exist (raising `ValueError` with the full
missing list otherwise), filter the rows whose `Plant` cell equals the
plant value, reset the index (no-op here), and apply the rename map. -/
def cleanCore (df : Table) (plant : Value) (ren : List (String × String)) :
    Except TableError Table :=
  let required := "Plant" :: ren.map (fun p => p.1)
  let missing := required.filter (fun c => decide (c ∉ df.header))
  if missing.isEmpty then
    .ok (renameCols (filterRows df "Plant" plant) ren)
  else .error (.missingColumns missing)

/-- Default rename map of `clean_prices_table`. -/
def defaultRename : List (String × String) := [("Material", "SKU_CODE")]

/-- Default price-column list of `clean_prices_table`. -/
def defaultFormatCols : List String := ["SalePrice", "InitialPrice", "PurchasePrice"]

/-- Embedding of `clean_prices_table` (prices/prices.py, the DataFrame
variant): the `price_to_float` conversion of the three default price
columns runs inside the `columns_to_format is None` branch, so it is
applied exactly when the caller passes no list; a caller-supplied list
is never used — the source only rebinds the local name inside the
`None` branch. -/
def cleanPricesTable (df : Table) (plant : Value)
    (columnsToFormat : Option (List String))
    (columnsToRename : Option (List (String × String))) : Except TableError Table :=
  let ren := columnsToRename.getD defaultRename
  match columnsToFormat with
  | none => cleanCore (priceToFloat df (some defaultFormatCols)) plant ren
  | some _ => cleanCore df plant ren

/-! ## `stock/stock.py` / `main.py` — `create_pivot_table` -/

/-- Order-preserving removal of duplicates (first occurrence kept). -/
def dedupF (l : List (α)) [DecidableEq α] : List α :=
  l.foldl (fun acc x => if x ∈ acc then acc else acc ++ [x]) []

/-- Association-list lookup used to model the grouped series produced by
`groupby ... agg` before `unstack`. -/
def alookup [DecidableEq κ] (k : κ) : List (κ × β) → Option β
  | [] => none
  | p :: rest => if p.1 = k then some p.2 else alookup k rest

/-- Numeric reading of a cell for aggregation (integers and floats;
non-numeric cells contribute zero, matching skipna aggregation). -/
def ratOf : Value → Rat
  | .int n => (n : Rat)
  | .num q => q
  | _ => 0

/-- Integer reading of an integer cell. -/
def intOf : Value → Int
  | .int n => n
  | _ => 0

/-- The supported aggregations of the pivot stage (`sum`, `mean`,
`count`); a sum of an all-integer group stays integral as in pandas. -/
def aggApply (agg : String) (vs : List Value) : Value :=
  match agg with
  | "sum" => if vs.all valueIsInt then .int (vs.map intOf).sum else .num (vs.map ratOf).sum
  | "mean" => .num ((vs.map ratOf).sum / (vs.length : Rat))
  | "count" => .int (vs.length : Nat)
  | _ => .null

/-- The composite group key of a row: its cells at the index columns
paired with its cell at the pivot column. -/
def rowKey (header : List String) (idxCols : List String) (pivotCol : String)
    (r : List Value) : List Value × Value :=
  (idxCols.map (getCell header r), getCell header r pivotCol)

/-- Rows that participate in the grouping: `groupby` drops rows with a
missing value in any grouping column. -/
def groupRows (df : Table) (idxCols : List String) (pivotCol : String) : List (List Value) :=
  df.rows.filter (fun r =>
    ((rowKey df.header idxCols pivotCol r).1 ++ [(rowKey df.header idxCols pivotCol r).2]).all
      (fun v => v != Value.null))

/-- The grouped-and-aggregated series of `create_pivot_table`: one entry
per distinct composite key present in the input, carrying the
aggregation of the value column over that group's rows. -/
def groupedSeries (df : Table) (idxCols : List String) (valueCol pivotCol agg : String) :
    List ((List Value × Value) × Value) :=
  (dedupF ((groupRows df idxCols pivotCol).map (rowKey df.header idxCols pivotCol))).map
    (fun k =>
      (k, aggApply agg
        (((groupRows df idxCols pivotCol).filter
            (fun r => decide (rowKey df.header idxCols pivotCol r = k))).map
          (fun r => getCell df.header r valueCol))))

/-- The wide result of the pivot stage: row keys (distinct index-column
tuples), pivot values (distinct cells of the pivot column, each
becoming a column of the wide table), and the cell matrix. -/
structure PivotResult where
  indexKeys : List (List Value)
  pivotVals : List Value
  cells : List (List Value)
deriving DecidableEq, Repr

/-- Default index columns of `create_pivot_table`. -/
def defaultIndexCols : List String :=
  ["SKU_CODE", "SKU_DESCRIPTION", "Brand", "Category", "Activity", "Gen", "Subgen"]

/-- Embedding of the in-memory core of `create_pivot_table`
(stock/stock.py and main.py are identical): resolve the default index
columns, validate all required columns in one pass (failing with the
full missing list before any grouping), group by index columns plus
pivot column, aggregate the value column, and `unstack` the pivot level
with `fill_value=0` — a cell whose composite key has no group is filled
with the integer `0`.  Row and column order here is first-occurrence
order (pandas sorts group keys; both are deterministic, and no claim
depends on the order). -/
def createPivotTable (df : Table) (indexCols : Option (List String))
    (valueCol pivotCol agg : String) : Except TableError PivotResult :=
  let idx := indexCols.getD defaultIndexCols
  let required := idx ++ [valueCol, pivotCol]
  let missing := required.filter (fun c => decide (c ∉ df.header))
  if missing.isEmpty then
    if agg = "sum" ∨ agg = "mean" ∨ agg = "count" then
      let g := groupedSeries df idx valueCol pivotCol agg
      let keys := dedupF ((groupRows df idx pivotCol).map
        (fun r => (rowKey df.header idx pivotCol r).1))
      let pvs := dedupF ((groupRows df idx pivotCol).map
        (fun r => (rowKey df.header idx pivotCol r).2))
      .ok ⟨keys, pvs,
        keys.map (fun k => pvs.map (fun pv => (alookup (k, pv) g).getD (Value.int 0)))⟩
    else .error (.valueError agg)
  else .error (.missingColumns missing)

/-! ## `main.py` — `merge_tables` -/

/-- Default attached price columns of `merge_tables`. -/
def defaultNeededPriceColumns : List String :=
  ["SKU_CODE", "SalePrice", "InitialPrice", "PurchasePrice"]

/-- The matching price rows for one stock row: rows of the restricted
price table whose key cell equals the stock row's key cell. -/
def mergeMatches (pr : Table) (mergeOn : String) (stockHeader : List String)
    (r : List Value) : List (List Value) :=
  pr.rows.filter (fun p =>
    decide (getCell pr.header p mergeOn = getCell stockHeader r mergeOn))

/-- The merged output rows generated by one stock row under a left join:
a single null-padded row when it has no match, otherwise one row per
match carrying the attached price cells. -/
def mergeRow (pr : Table) (mergeOn : String) (attachCols : List String)
    (stockHeader : List String) (r : List Value) : List (List Value) :=
  let ms := mergeMatches pr mergeOn stockHeader r
  if ms.isEmpty then [r ++ attachCols.map (fun _ => Value.null)]
  else ms.map (fun p => r ++ attachCols.map (getCell pr.header p))

/-- Embedding of the in-memory core of `merge_tables` (main.py;
stock/stock.py is identical): resolve the falsy defaults (`None` or an
empty list/string select the default column list and key), validate the
needed price columns against the price table in one pass, restrict the
price table to those columns, then left-join on the key — pandas
raises `KeyError` naming the key when it is absent from either operand,
which the source catches and logs, producing no merged table. -/
def mergeTables (stock prices : Table) (neededPriceColumns : Option (List String))
    (mergeOn : Option String) : Except TableError Table :=
  let needed := match neededPriceColumns with
    | some l => if l.isEmpty then defaultNeededPriceColumns else l
    | none => defaultNeededPriceColumns
  let key := match mergeOn with
    | some s => if s = "" then "SKU_CODE" else s
    | none => "SKU_CODE"
  let missing := needed.filter (fun c => decide (c ∉ prices.header))
  if missing.isEmpty then
    let pr := restrictCols prices needed
    if key ∈ stock.header ∧ key ∈ pr.header then
      let attachCols := needed.filter (fun c => decide (c ≠ key))
      .ok ⟨stock.header ++ attachCols,
        (stock.rows.map (mergeRow pr key attachCols stock.header)).flatten⟩
    else .error (.keyNotFound key)
  else .error (.missingColumns missing)

/-! ## `stock/stock.py` — `move_columns` and `create_column` -/

/-- Default moved columns of `move_columns`. -/
def defaultColumnsToMove : List String := ["SalePrice", "InitialPrice", "PurchasePrice"]

/-- Embedding of the in-memory core of `move_columns` (stock/stock.py):
`if not columns_to_move` treats both `None` and the empty list as
absent and substitutes the default triple; the anchor column and all
moved columns are then validated, the moved columns are removed from
the column order, and reinserted as a block immediately after the
anchor's position in the reduced order; `reindex` realises the new
order. -/
def moveColumns (df : Table) (afterColumn : String)
    (columnsToMove : Option (List String)) : Except TableError Table :=
  let toMove := match columnsToMove with
    | some l => if l.isEmpty then defaultColumnsToMove else l
    | none => defaultColumnsToMove
  if afterColumn ∈ df.header then
    let missing := toMove.filter (fun c => decide (c ∉ df.header))
    if missing.isEmpty then
      let reduced := df.header.filter (fun c => decide (c ∉ toMove))
      let insertAt := colIdx reduced afterColumn + 1
      .ok (restrictCols df (reduced.take insertAt ++ toMove ++ reduced.drop insertAt))
    else .error (.missingColumns missing)
  else .error (.keyNotFound afterColumn)

/-- Embedding of `create_column` (utils/column_creators.py): the column
value is the formula's result (or all-null without a formula) and is
assigned, then the optional formatter is applied; the reposition branch
of the source calls `move_columns(dataframe, after_column_name,
columns_to_move=[column_name])`, but `move_columns` (stock/stock.py)
declares the required positional parameters `(input_file_path,
output_file_path, after_column, ...)`, so the call binds the dataframe
and the anchor name to the two path parameters and leaves
`after_column` unbound: Python raises `TypeError` before any
repositioning can happen, whenever `after_column_name` is given. -/
def createColumn (df : Table) (columnName : String)
    (afterColumnName : Option String) (formula : Option (Table → List Value))
    (formatterFunc : Option (Table → String → Table)) : Except TableError Table :=
  let value := match formula with
    | some f => f df
    | none => df.rows.map (fun _ => Value.null)
  let df1 := setCol df columnName value
  let df2 := match formatterFunc with
    | some g => g df1 columnName
    | none => df1
  match afterColumnName with
  | none => .ok df2
  | some _ =>
    .error (.typeError "move_columns missing 1 required positional argument: after_column")

/-! ## `utils/formulas.py` — `markup` and `percentage` -/

/-- VAT divisor table of `markup`. -/
def vatDivisor : String → Option Rat
  | "BG" => some (6 / 5)
  | "RO" => some (121 / 100)
  | "GR" => some (31 / 25)
  | _ => none

/-- Round-half-to-even of a rational to an integer, the tie rule of
`numpy`/pandas `round`. -/
def roundHalfEven (q : Rat) : Int :=
  let f : Int := ⌊q⌋
  let r := q - (f : Rat)
  if r < 1 / 2 then f
  else if 1 / 2 < r then f + 1
  else if f % 2 = 0 then f else f + 1

/-- Rounding of a rational to `n` decimal places, half to even
(`Series.round`); exact on the decimal data of this pipeline, while
pandas operates on binary floats. -/
def pyRound (q : Rat) (n : Nat) : Rat :=
  (roundHalfEven (q * (10 : Rat) ^ n) : Rat) / (10 : Rat) ^ n

/-- The element-wise markup of one row: sale price divided by the VAT
divisor divided by cost price, rounded. -/
def markupCell (header : List String) (costCol saleCol : String) (vd : Rat)
    (roundTo : Nat) (r : List Value) : Value :=
  .num (pyRound (ratOf (getCell header r saleCol) / vd / ratOf (getCell header r costCol)) roundTo)

/-- Embedding of `markup` (utils/formulas.py): the country is validated
against the VAT table first (`ValueError` otherwise), then both price
columns are validated in one pass (`ValueError` with the full missing
list), then the rounded quotient series is computed element-wise and
returned — the input table is never written to, the caller assigns the
returned series.  Division by zero (an infinity in pandas) is outside
the rational model; the theorems below restrict to nonzero costs where
that matters. -/
def markup (df : Table) (costCol saleCol country : String) (roundTo : Nat) :
    Except TableError (List Value) :=
  match vatDivisor country with
  | none => .error (.valueError country)
  | some vd =>
    let missing := [costCol, saleCol].filter (fun c => decide (c ∉ df.header))
    if missing.isEmpty then
      .ok (df.rows.map (markupCell df.header costCol saleCol vd roundTo))
    else .error (.missingColumns missing)

/-- Embedding of `percentage` (utils/formulas.py): validates both
columns, then computes sale over initial minus one element-wise. -/
def percentage (df : Table) (initCol saleCol : String) : Except TableError (List Value) :=
  let missing := [initCol, saleCol].filter (fun c => decide (c ∉ df.header))
  if missing.isEmpty then
    .ok (df.rows.map (fun r =>
      .num (ratOf (getCell df.header r saleCol) / ratOf (getCell df.header r initCol) - 1)))
  else .error (.missingColumns missing)

/-! ## Concrete tables used by the witness and counterexample theorems -/

/-- The rational 5/2, i.e. the float 2.5, given with explicit numerator
and denominator so that concrete evaluation stays kernel-reducible. -/
def q52 : Rat := Rat.mk' 5 2 (by norm_num) (by norm_num)

/-- A stock report whose AVAILABLE column holds the fractional count 2.5. -/
def c1Table : Table := ⟨["Concept", "AVAILABLE"], [[.str "OUTLET", .num q52]]⟩

/-- A price table whose SalePrice text strips to the empty string (so its
numeric conversion fails) and whose PurchasePrice text converts. -/
def c2Table : Table := ⟨["SalePrice", "PurchasePrice"], [[.str "abc", .str "10 lv"]]⟩

/-- A stock table with two rows and two distinct pivot cells, leaving two
(index, pivot) combinations absent. -/
def c4Table : Table :=
  ⟨["SKU_CODE", "AVAILABLE", "STORE_CODE"],
   [[.str "A", .int 5, .str "S1"], [.str "B", .int 3, .str "S2"]]⟩

/-- A stock table for the merge example: SKU A has a price match, SKU B
has none. -/
def c5StockTable : Table := ⟨["SKU_CODE", "Qty"], [[.str "A", .int 1], [.str "B", .int 2]]⟩

/-- The price table for the merge example: only SKU A is priced. -/
def c5PricesTable : Table := ⟨["SKU_CODE", "SalePrice"], [[.str "A", .int 7]]⟩

/-- A two-column table whose column order an empty move list should,
per the claim, leave unchanged. -/
def c6Table : Table := ⟨["A", "B"], [[.int 1, .int 2]]⟩

/-- A three-column table used to exercise a real reposition. -/
def c6Table2 : Table := ⟨["A", "SalePrice", "B"], [[.int 1, .int 2, .int 3]]⟩

/-- The markup numeric example of the specification: PurchasePrice 100,
SalePrice 150. -/
def c8Table : Table := ⟨["PurchasePrice", "SalePrice"], [[.int 100, .int 150]]⟩

/-! ## Auxiliary list lemmas -/

theorem getD_set_self (l : List α) (i : Nat) (a d : α) (h : i < l.length) :
    (l.set i a).getD i d = a := by
  induction l generalizing i with
  | nil => simp at h
  | cons x xs ih =>
    cases i with
    | zero => rfl
    | succ n => simpa using ih n (by simpa using h)

theorem getD_set_ne (l : List α) (i j : Nat) (a d : α) (h : i ≠ j) :
    (l.set i a).getD j d = l.getD j d := by
  induction l generalizing i j with
  | nil => simp
  | cons x xs ih =>
    cases i with
    | zero =>
      cases j with
      | zero => exact absurd rfl h
      | succ m => simp
    | succ n =>
      cases j with
      | zero => simp
      | succ m => simpa using ih n m (fun hnm => h (by rw [hnm]))

theorem colIdx_lt_length (h : List String) (c : String) :
    c ∈ h → colIdx h c < h.length := by
  induction h with
  | nil => intro hc; simp at hc
  | cons x xs ih =>
    intro hc
    by_cases hx : x = c
    · simp [colIdx, hx]
    · rcases List.mem_cons.1 hc with hc | hc
      · exact absurd hc.symm hx
      · simpa [colIdx, hx] using ih hc

theorem colIdx_getD (h : List String) (c d : String) :
    c ∈ h → h.getD (colIdx h c) d = c := by
  induction h with
  | nil => intro hc; simp at hc
  | cons x xs ih =>
    intro hc
    by_cases hx : x = c
    · simp [colIdx, hx]
    · rcases List.mem_cons.1 hc with hc | hc
      · exact absurd hc.symm hx
      · simpa [colIdx, hx] using ih hc

theorem colIdx_eq_length_of_not_mem (h : List String) (c : String) :
    c ∉ h → colIdx h c = h.length := by
  induction h with
  | nil => intro _; rfl
  | cons x xs ih =>
    intro hd
    have hx : ¬x = c := fun hxc => hd (List.mem_cons.2 (Or.inl hxc.symm))
    have hxs : c ∉ xs := fun hm => hd (List.mem_cons_of_mem x hm)
    simp [colIdx, hx, ih hxs]

theorem colIdx_ne (h : List String) (c d : String) (hc : c ∈ h) (hne : d ≠ c) :
    colIdx h d ≠ colIdx h c := by
  intro heq
  by_cases hd : d ∈ h
  · exact hne ((colIdx_getD h d "" hd).symm.trans (heq ▸ colIdx_getD h c "" hc))
  · have hlt := colIdx_lt_length h c hc
    have hlen := colIdx_eq_length_of_not_mem h d hd
    omega

theorem foldl_dedup_mem [DecidableEq α] (l : List α) (x : α) :
    ∀ acc : List α,
      x ∈ l.foldl (fun acc y => if y ∈ acc then acc else acc ++ [y]) acc →
      x ∈ acc ∨ x ∈ l := by
  induction l with
  | nil => exact fun _ h => Or.inl h
  | cons y ys ih =>
    intro acc h
    by_cases hy : y ∈ acc
    · rcases ih acc (by simpa [List.foldl_cons, hy] using h) with h' | h'
      · exact Or.inl h'
      · exact Or.inr (List.mem_cons_of_mem y h')
    · rcases ih (acc ++ [y]) (by simpa [List.foldl_cons, hy] using h) with h' | h'
      · rcases List.mem_append.1 h' with h'' | h''
        · exact Or.inl h''
        · simp only [List.mem_singleton] at h''
          exact Or.inr (List.mem_cons.2 (Or.inl h''))
      · exact Or.inr (List.mem_cons_of_mem y h')

theorem mem_of_mem_dedupF [DecidableEq α] (l : List α) (x : α) (hx : x ∈ dedupF l) :
    x ∈ l := by
  rcases foldl_dedup_mem l x [] hx with h | h
  · simp at h
  · exact h

theorem alookup_eq_none [DecidableEq κ] (k : κ) (l : List (κ × β))
    (h : ∀ p ∈ l, p.1 ≠ k) : alookup k l = none := by
  induction l with
  | nil => rfl
  | cons p rest ih =>
    have hp := h p (List.mem_cons_self p rest)
    simp only [alookup, if_neg hp]
    exact ih fun q hq => h q (List.mem_cons_of_mem p hq)

theorem getD_map (f : α → β) (l : List α) (i : Nat) (d : β) (e : α)
    (h : i < l.length) : (l.map f).getD i d = f (l.getD i e) := by
  induction l generalizing i with
  | nil => simp at h
  | cons x xs ih =>
    cases i with
    | zero => rfl
    | succ n => simpa using ih n (by simpa using h)

theorem flatten_length_of_singletons (l : List (List α))
    (h : ∀ x ∈ l, x.length = 1) : l.flatten.length = l.length := by
  induction l with
  | nil => rfl
  | cons x xs ih =>
    have hx := h x (List.mem_cons_self x xs)
    simp [List.flatten, hx, ih fun y hy => h y (List.mem_cons_of_mem x hy)]
    omega

/-! ## Table-level lemmas -/

theorem convertCol_length (vs : List Value) : (convertCol vs).length = vs.length := by
  unfold convertCol
  dsimp only
  split
  · split <;> simp
  · simp

theorem getCol_length (t : Table) (c : String) : (getCol t c).length = t.rows.length := by
  simp [getCol]

theorem exists_of_mem_zipWith (f : α → β → γ) (as : List α) (bs : List β) (x : γ) :
    x ∈ List.zipWith f as bs → ∃ a b, a ∈ as ∧ b ∈ bs ∧ x = f a b := by
  induction as generalizing bs with
  | nil => intro h; simp at h
  | cons a as ih =>
    intro h
    cases bs with
    | nil => simp at h
    | cons b bs =>
      rcases List.mem_cons.1 h with h' | h'
      · exact ⟨a, b, List.mem_cons_self a as, List.mem_cons_self b bs, h'⟩
      · rcases ih bs h' with ⟨a', b', ha, hb, hx⟩
        exact ⟨a', b', List.mem_cons_of_mem a ha, List.mem_cons_of_mem b hb, hx⟩

theorem map_getD_zipWith_set (rows : List (List Value)) (vals : List Value) (i : Nat)
    (hlen : vals.length = rows.length) (hr : ∀ r ∈ rows, i < r.length) :
    (List.zipWith (fun r v => r.set i v) rows vals).map (fun r => r.getD i Value.null)
      = vals := by
  induction rows generalizing vals with
  | nil =>
    cases vals with
    | nil => rfl
    | cons v vs => simp at hlen
  | cons r rs ih =>
    cases vals with
    | nil => simp at hlen
    | cons v vs =>
      simp only [List.zipWith_cons_cons, List.map_cons]
      rw [getD_set_self r i v Value.null (hr r (List.mem_cons_self r rs)),
        ih vs (by simpa using hlen) (fun r' hm => hr r' (List.mem_cons_of_mem r hm))]

theorem map_getD_zipWith_set_ne (rows : List (List Value)) (vals : List Value) (i j : Nat)
    (hij : j ≠ i) (hlen : vals.length = rows.length) :
    (List.zipWith (fun r v => r.set i v) rows vals).map (fun r => r.getD j Value.null)
      = rows.map (fun r => r.getD j Value.null) := by
  induction rows generalizing vals with
  | nil => rfl
  | cons r rs ih =>
    cases vals with
    | nil => simp at hlen
    | cons v vs =>
      simp only [List.zipWith_cons_cons, List.map_cons]
      rw [getD_set_ne r i j v Value.null (fun hh => hij hh.symm),
        ih vs (by simpa using hlen)]

theorem header_processPriceCol (t : Table) (c : String) :
    (processPriceCol t c).header = t.header := by
  unfold processPriceCol
  split
  · simp [setCol, *]
  · rfl

theorem rows_length_processPriceCol (t : Table) (c : String) :
    (processPriceCol t c).rows.length = t.rows.length := by
  unfold processPriceCol
  split
  · simp [setCol, *, convertCol_length, getCol_length]
  · rfl

theorem Wf_processPriceCol (t : Table) (c : String) (hw : Wf t) :
    Wf (processPriceCol t c) := by
  obtain ⟨hnd, hrows⟩ := hw
  unfold processPriceCol
  split
  · next hc =>
    simp only [setCol, if_pos hc]
    refine ⟨hnd, fun r hr => ?_⟩
    rcases exists_of_mem_zipWith _ _ _ _ hr with ⟨a, b, ha, _, rfl⟩
    simpa using hrows a ha
  · exact ⟨hnd, hrows⟩

theorem getCol_processPriceCol_self (t : Table) (c : String) (hw : Wf t)
    (hc : c ∈ t.header) :
    getCol (processPriceCol t c) c = convertCol (getCol t c) := by
  obtain ⟨_, hrows⟩ := hw
  simp only [processPriceCol, if_pos hc, setCol, getCol, getCell]
  exact map_getD_zipWith_set _ _ _
    (by simp [convertCol_length, getCol_length, getCol])
    (fun r hr => (hrows r hr) ▸ colIdx_lt_length t.header c hc)

theorem getCol_processPriceCol_ne (t : Table) (c d : String) (hne : d ≠ c) :
    getCol (processPriceCol t d) c = getCol t c := by
  unfold processPriceCol
  split
  · next hd =>
    simp only [setCol, if_pos hd, getCol, getCell]
    exact map_getD_zipWith_set_ne _ _ _ _
      (colIdx_ne t.header d c hd (fun h => hne h.symm))
      (by simp [convertCol_length, getCol_length, getCol])
  · rfl

theorem header_foldl_processPriceCol (cols : List String) (t : Table) :
    (cols.foldl processPriceCol t).header = t.header := by
  induction cols generalizing t with
  | nil => rfl
  | cons c cs ih => rw [List.foldl_cons, ih, header_processPriceCol]

theorem Wf_foldl_processPriceCol (cols : List String) (t : Table) (hw : Wf t) :
    Wf (cols.foldl processPriceCol t) := by
  induction cols generalizing t with
  | nil => exact hw
  | cons c cs ih => exact ih _ (Wf_processPriceCol t c hw)

theorem getCol_foldl_processPriceCol_not_mem (cols : List String) (t : Table)
    (c : String) (hc : c ∉ cols) :
    getCol (cols.foldl processPriceCol t) c = getCol t c := by
  induction cols generalizing t with
  | nil => rfl
  | cons d ds ih =>
    rw [List.foldl_cons, ih _ (fun h => hc (List.mem_cons_of_mem d h)),
      getCol_processPriceCol_ne t c d (fun h => hc (List.mem_cons.2 (Or.inl h.symm)))]

theorem mergeRow_length_one (pr : Table) (key : String) (att : List String)
    (sh : List String) (r : List Value)
    (h : (mergeMatches pr key sh r).length ≤ 1) :
    (mergeRow pr key att sh r).length = 1 := by
  unfold mergeRow
  cases hm : mergeMatches pr key sh r with
  | nil => simp [hm]
  | cons p ps =>
    cases ps with
    | nil => simp [hm]
    | cons q qs =>
      rw [hm] at h
      simp at h

/-! ## Claim theorems -/

/-- C1: the cast-to-integer step of `process_stock_report_df` does NOT
fail loudly on fractional values — `astype(int)` silently truncates
them.  On a stock report whose AVAILABLE cell is the float 2.5, the
processing succeeds and returns AVAILABLE = 2 instead of raising a
type-coercion error: the code contradicts the specification's
requirement that non-integral values fail loudly. -/
theorem processStockReportDf_silently_truncates :
    processStockReportDf c1Table none none none =
      .ok ⟨["Concept", "AVAILABLE"], [[.str "OUTLET", .int 2]]⟩ ∧ q52 = 5 / 2 := by
  constructor
  · rfl
  · rw [q52, Rat.mk'_eq_divInt, Rat.divInt_eq_div]
    norm_num

/-- C2 counterexample: when the numeric conversion of a named column
fails, `price_to_float` does not retain the column's original values.
On a table whose SalePrice cell is the text abc, the first assignment
of the source has already replaced the cell by its stripped form (the
empty string) before `pd.to_numeric` raises, so the returned column
differs from the original; the claim that the original values are
retained is therefore false at this input. -/
theorem priceToFloat_not_retaining_originals :
    getCol (priceToFloat c2Table (some ["SalePrice", "PurchasePrice"])) "SalePrice" ≠
      getCol c2Table "SalePrice" ∧
    priceToFloat c2Table (some ["SalePrice", "PurchasePrice"]) =
      ⟨["SalePrice", "PurchasePrice"], [[.str "", .int 10]]⟩ ∧
    getCol c2Table "SalePrice" = [.str "abc"] :=
  ⟨by decide, rfl, rfl⟩

/-- C2 (amended): each named, present column of `price_to_float` is
processed independently — its output is exactly `convertCol` of its
input column, whatever happens to the other named columns.  By the
definition of `convertCol`, a column whose conversion fails is left
unconverted but holding the intermediate stripped string forms (its
values cast to text with every character other than digits and points
removed), not its original values, while every other named column whose
conversion succeeds is still converted to numbers; the header is
unchanged. -/
theorem priceToFloat_column_independent (df : Table) (needed : List String)
    (hwf : Wf df) (hnd : needed.Nodup) (c : String) (hc : c ∈ needed)
    (hch : c ∈ df.header) :
    (priceToFloat df (some needed)).header = df.header ∧
    getCol (priceToFloat df (some needed)) c = convertCol (getCol df c) := by
  refine ⟨header_foldl_processPriceCol needed df, ?_⟩
  rcases List.append_of_mem hc with ⟨l1, l2, rfl⟩
  rw [List.nodup_append] at hnd
  obtain ⟨_, h2, hdisj⟩ := hnd
  have hc1 : c ∉ l1 := fun hm => hdisj hm (List.mem_cons_self c l2)
  have hc2 : c ∉ l2 := (List.nodup_cons.1 h2).1
  show getCol ((l1 ++ c :: l2).foldl processPriceCol df) c = _
  rw [List.foldl_append, List.foldl_cons,
    getCol_foldl_processPriceCol_not_mem l2 _ c hc2,
    getCol_processPriceCol_self _ c (Wf_foldl_processPriceCol l1 df hwf)
      ((header_foldl_processPriceCol l1 df).symm ▸ hch),
    getCol_foldl_processPriceCol_not_mem l1 df c hc1]

/-- Witness for the amended C2 theorem at a concrete table: SalePrice
fails to convert (its cell strips to the empty string) and equals the
stripped-string column, PurchasePrice still converts. -/
theorem priceToFloat_column_independent_witness :
    (priceToFloat c2Table (some ["SalePrice", "PurchasePrice"])).header = c2Table.header ∧
    getCol (priceToFloat c2Table (some ["SalePrice", "PurchasePrice"])) "SalePrice" =
      convertCol (getCol c2Table "SalePrice") :=
  priceToFloat_column_independent c2Table ["SalePrice", "PurchasePrice"]
    (by decide) (by decide) "SalePrice" (by decide) (by decide)

/-- C3: whenever `create_column` is given an `after_column_name`, its
reposition branch fails with a `TypeError` for every input: the source
calls the path-based `move_columns(input_file_path, output_file_path,
after_column, ...)` with only two positional arguments and the keyword
`columns_to_move`, leaving the required parameter `after_column`
unbound, so Python raises before any repositioning.  The claimed
compute-format-reposition composition never completes. -/
theorem createColumn_after_always_type_error (df : Table) (columnName after : String)
    (formula : Option (Table → List Value))
    (formatterFunc : Option (Table → String → Table)) :
    createColumn df columnName (some after) formula formatterFunc =
      .error (.typeError "move_columns missing 1 required positional argument: after_column") :=
  rfl

/-- C10: the DataFrame variant of `clean_prices_table` applies the
`price_to_float` conversion (on SalePrice, InitialPrice, PurchasePrice)
exactly when `columns_to_format` is `None`; any caller-supplied list
yields the unformatted pipeline and the supplied list itself is never
consulted — the result is the same for every supplied list. -/
theorem cleanPricesTable_formats_iff_none (df : Table) (plant : Value)
    (ren : Option (List (String × String))) :
    cleanPricesTable df plant none ren =
      cleanCore (priceToFloat df (some defaultFormatCols)) plant (ren.getD defaultRename) ∧
    ∀ cols : List String,
      cleanPricesTable df plant (some cols) ren = cleanCore df plant (ren.getD defaultRename) :=
  ⟨rfl, fun _ => rfl⟩

/-- C6 counterexample: the claim quantifies over every valid
`(anchorColumn, columnsToMove)` pair, which includes the empty move
list, for which the output order should equal the input order; but
`if not columns_to_move` in the source treats the empty list like
`None` and substitutes the default triple, so on a table without those
default columns the call fails instead of returning the table
unchanged. -/
theorem moveColumns_empty_list_uses_defaults :
    moveColumns c6Table "A" (some []) =
      .error (.missingColumns ["SalePrice", "InitialPrice", "PurchasePrice"]) :=
  rfl

/-- C6 (amended): for every valid `(anchorColumn, columnsToMove)` pair
with a NONEMPTY move list (the empty list is replaced by the default
triple), the output column order is the input order with the moved
columns removed and reinserted as one contiguous block starting right
after the anchor's position in the reduced order, and the non-moved
columns keep their relative order (filtering the moved names out of the
output gives exactly the reduced input order). -/
theorem moveColumns_reposition (df : Table) (after : String) (toMove : List String)
    (h1 : after ∈ df.header) (h2 : toMove ≠ [])
    (h3 : ∀ c ∈ toMove, c ∈ df.header) (h4 : after ∉ toMove) :
    ∃ res, moveColumns df after (some toMove) = .ok res ∧
      res.header =
        (df.header.filter (fun c => decide (c ∉ toMove))).take
            (colIdx (df.header.filter (fun c => decide (c ∉ toMove))) after + 1) ++
          toMove ++
          (df.header.filter (fun c => decide (c ∉ toMove))).drop
            (colIdx (df.header.filter (fun c => decide (c ∉ toMove))) after + 1) ∧
      res.header.filter (fun c => decide (c ∉ toMove)) =
        df.header.filter (fun c => decide (c ∉ toMove)) := by
  have hEmpty : toMove.isEmpty = false := by
    cases toMove with
    | nil => exact absurd rfl h2
    | cons a l => rfl
  have hmiss : toMove.filter (fun c => decide (c ∉ df.header)) = [] :=
    List.filter_eq_nil_iff.mpr fun c hc => by simpa using h3 c hc
  refine ⟨restrictCols df
      ((df.header.filter (fun c => decide (c ∉ toMove))).take
          (colIdx (df.header.filter (fun c => decide (c ∉ toMove))) after + 1) ++
        toMove ++
        (df.header.filter (fun c => decide (c ∉ toMove))).drop
          (colIdx (df.header.filter (fun c => decide (c ∉ toMove))) after + 1)),
    ?_, rfl, ?_⟩
  · unfold moveColumns
    simp only [hEmpty, Bool.false_eq_true, if_false, if_pos h1, hmiss,
      List.isEmpty_nil, if_true]
  · have hfilterMove : toMove.filter (fun c => decide (c ∉ toMove)) = [] :=
      List.filter_eq_nil_iff.mpr fun c hc => by simpa using hc
    simp only [restrictCols]
    rw [List.filter_append, List.filter_append, hfilterMove, List.append_nil,
      ← List.filter_append, List.take_append_drop, List.filter_filter]
    simp

/-- Witness for the amended C6 theorem: moving SalePrice after B in the
table with columns A, SalePrice, B yields the order A, B, SalePrice,
and the non-moved columns A, B keep their relative order. -/
theorem moveColumns_reposition_witness :
    ∃ res, moveColumns c6Table2 "B" (some ["SalePrice"]) = .ok res ∧
      res.header = ["A", "B", "SalePrice"] ∧
      res.header.filter (fun c => decide (c ∉ ["SalePrice"])) = ["A", "B"] :=
  moveColumns_reposition c6Table2 "B" ["SalePrice"]
    (by decide) (by decide) (by decide) (by decide)

/-- C7: the transforms with required-column preconditions validate
eagerly and report every missing name at once.  `create_pivot_table`
collects in one pass every required column (index columns, value
column, pivot column) absent from the table and fails with that whole
list before any grouping, and `markup` collects both absent price
columns in one pass and fails with the whole list before computing
anything. -/
theorem missing_columns_all_enumerated (dfP : Table) (idx : List String)
    (valueCol pivotCol agg : String) (dfM : Table)
    (costCol saleCol country : String) (vd : Rat) (roundTo : Nat)
    (hp : (idx ++ [valueCol, pivotCol]).filter (fun c => decide (c ∉ dfP.header)) ≠ [])
    (hc : vatDivisor country = some vd)
    (hm : [costCol, saleCol].filter (fun c => decide (c ∉ dfM.header)) ≠ []) :
    createPivotTable dfP (some idx) valueCol pivotCol agg =
      .error (.missingColumns
        ((idx ++ [valueCol, pivotCol]).filter (fun c => decide (c ∉ dfP.header)))) ∧
    markup dfM costCol saleCol country roundTo =
      .error (.missingColumns
        ([costCol, saleCol].filter (fun c => decide (c ∉ dfM.header)))) := by
  constructor
  · have hpe : ((idx ++ [valueCol, pivotCol]).filter
        (fun c => decide (c ∉ dfP.header))).isEmpty = false := by
      cases he : (idx ++ [valueCol, pivotCol]).filter (fun c => decide (c ∉ dfP.header)) with
      | nil => exact absurd he hp
      | cons a l => rfl
    unfold createPivotTable
    simp only [Option.getD_some, hpe, Bool.false_eq_true, if_false]
  · have hme : (([costCol, saleCol]).filter
        (fun c => decide (c ∉ dfM.header))).isEmpty = false := by
      cases he : [costCol, saleCol].filter (fun c => decide (c ∉ dfM.header)) with
      | nil => exact absurd he hm
      | cons a l => rfl
    unfold markup
    rw [hc]
    simp only [hme, Bool.false_eq_true, if_false]

/-- Witness for C7: a pivot over a table lacking all three of
NoSuchCol, AVAILABLE and STORE_CODE fails listing all three, and a
markup over a table lacking both price columns fails listing both. -/
theorem missing_columns_all_enumerated_witness :
    createPivotTable ⟨["A"], []⟩ (some ["NoSuchCol"]) "AVAILABLE" "STORE_CODE" "sum" =
      .error (.missingColumns ["NoSuchCol", "AVAILABLE", "STORE_CODE"]) ∧
    markup ⟨["A"], []⟩ "PurchasePrice" "SalePrice" "BG" 2 =
      .error (.missingColumns ["PurchasePrice", "SalePrice"]) := by
  have h := missing_columns_all_enumerated ⟨["A"], []⟩ ["NoSuchCol"] "AVAILABLE"
    "STORE_CODE" "sum" ⟨["A"], []⟩ "PurchasePrice" "SalePrice" "BG" (6 / 5) 2
    (by decide) rfl (by decide)
  exact ⟨h.1, h.2⟩

/-- C9: when `merge_tables` reaches the join (its needed-price-columns
precondition passes) and the merge key is absent from the stock table
or from the price table, the merge fails with the key-not-found error
naming that key — the `KeyError` pandas raises, which the source
catches and logs, producing no merged table. -/
theorem mergeTables_absent_key_fails (stock prices : Table) (needed : List String)
    (key : String) (hne : needed ≠ []) (hkey : key ≠ "")
    (hprec : needed.filter (fun c => decide (c ∉ prices.header)) = [])
    (habs : key ∉ stock.header ∨ key ∉ prices.header) :
    mergeTables stock prices (some needed) (some key) = .error (.keyNotFound key) := by
  have hEmpty : needed.isEmpty = false := by
    cases needed with
    | nil => exact absurd rfl hne
    | cons a l => rfl
  have hsub : ∀ c ∈ needed, c ∈ prices.header := by
    intro c hc
    by_contra hcn
    have : c ∈ needed.filter (fun c => decide (c ∉ prices.header)) :=
      List.mem_filter.2 ⟨hc, by simpa using hcn⟩
    rw [hprec] at this
    simp at this
  have hnot : ¬(key ∈ stock.header ∧ key ∈ (restrictCols prices needed).header) := by
    rintro ⟨hks, hkn⟩
    rcases habs with h | h
    · exact h hks
    · exact h (hsub key hkn)
  unfold mergeTables
  simp only [hEmpty, Bool.false_eq_true, if_false, hkey, hprec, List.isEmpty_nil,
    if_true, if_neg hnot]

/-- Witness for C9: joining on the default key SKU_CODE when the stock
table lacks it (the price table has its needed column) fails naming
SKU_CODE. -/
theorem mergeTables_absent_key_fails_witness :
    mergeTables ⟨["A"], []⟩ ⟨["SalePrice"], []⟩ (some ["SalePrice"]) (some "SKU_CODE") =
      .error (.keyNotFound "SKU_CODE") :=
  mergeTables_absent_key_fails ⟨["A"], []⟩ ⟨["SalePrice"], []⟩ ["SalePrice"] "SKU_CODE"
    (by decide) (by decide) (by decide) (Or.inl (by decide))

/-- C4: in a successful pivot, every cell whose (index-key, pivot-value)
combination is absent from the input rows holds the integer 0 — the
`unstack(fill_value=0)` fill — and never a missing value. -/
theorem pivot_absent_combination_zero (df : Table) (idx : List String)
    (valueCol pivotCol agg : String) (res : PivotResult)
    (hok : createPivotTable df (some idx) valueCol pivotCol agg = .ok res)
    (i j : Nat) (hi : i < res.indexKeys.length) (hj : j < res.pivotVals.length)
    (habs : ∀ r ∈ df.rows,
      ¬(idx.map (getCell df.header r) = res.indexKeys.getD i [] ∧
        getCell df.header r pivotCol = res.pivotVals.getD j Value.null)) :
    (res.cells.getD i []).getD j Value.null = Value.int 0 ∧
    (res.cells.getD i []).getD j Value.null ≠ Value.null := by
  unfold createPivotTable at hok
  dsimp only [Option.getD_some] at hok
  split at hok
  · split at hok
    · rw [Except.ok.injEq] at hok
      subst hok
      dsimp only at hi hj ⊢
      rw [getD_map _ _ i [] [] hi, getD_map _ _ j Value.null Value.null hj]
      have hnone : alookup
          ((dedupF ((groupRows df idx pivotCol).map
              (fun r => (rowKey df.header idx pivotCol r).1))).getD i [],
           (dedupF ((groupRows df idx pivotCol).map
              (fun r => (rowKey df.header idx pivotCol r).2))).getD j Value.null)
          (groupedSeries df idx valueCol pivotCol agg) = none := by
        apply alookup_eq_none
        intro p hp
        unfold groupedSeries at hp
        rcases List.mem_map.1 hp with ⟨k, hk, rfl⟩
        dsimp only
        intro hkeq
        rcases List.mem_map.1 (mem_of_mem_dedupF _ _ hk) with ⟨r, hr, hrk⟩
        have hrow : r ∈ df.rows := (List.mem_filter.1 hr).1
        apply habs r hrow
        rw [← hrk] at hkeq
        unfold rowKey at hkeq
        rw [Prod.mk.injEq] at hkeq
        exact ⟨hkeq.1, hkeq.2⟩
      rw [hnone]
      exact ⟨rfl, by decide⟩
    · exact absurd hok (by simp)
  · exact absurd hok (by simp)

/-- Witness for C4: pivoting the two-row table by SKU with stores as
pivot columns, the absent combination (SKU A, store S2) holds 0. -/
theorem pivot_absent_combination_zero_witness :
    ((PivotResult.mk [[Value.str "A"], [Value.str "B"]] [Value.str "S1", Value.str "S2"]
        [[Value.int 5, Value.int 0], [Value.int 0, Value.int 3]]).cells.getD 0 []).getD 1
        Value.null = Value.int 0 ∧
    ((PivotResult.mk [[Value.str "A"], [Value.str "B"]] [Value.str "S1", Value.str "S2"]
        [[Value.int 5, Value.int 0], [Value.int 0, Value.int 3]]).cells.getD 0 []).getD 1
        Value.null ≠ Value.null :=
  pivot_absent_combination_zero c4Table ["SKU_CODE"] "AVAILABLE" "STORE_CODE" "sum"
    ⟨[[Value.str "A"], [Value.str "B"]], [Value.str "S1", Value.str "S2"],
      [[Value.int 5, Value.int 0], [Value.int 0, Value.int 3]]⟩
    rfl 0 1 (by decide) (by decide) (by decide)

/-- C5: `merge_tables` is an outer-preserving-left join.  Under the
preconditions (needed price columns present, key in the stock header
and among the needed columns), the merged rows are the concatenation,
in stock order, of each stock row's contribution; a stock row with no
key match contributes exactly one row padded with nulls in the attached
price columns, a stock row with exactly one match contributes exactly
one row populated from that match, and when every stock row has at most
one match the output has exactly one row per stock row. -/
theorem mergeTables_left_join (stock prices : Table) (needed : List String)
    (key : String) (hne : needed ≠ []) (hkey : key ≠ "")
    (hprec : needed.filter (fun c => decide (c ∉ prices.header)) = [])
    (hks : key ∈ stock.header) (hkn : key ∈ needed) :
    ∃ res, mergeTables stock prices (some needed) (some key) = .ok res ∧
      res.rows = (stock.rows.map
        (mergeRow (restrictCols prices needed) key
          (needed.filter (fun c => decide (c ≠ key))) stock.header)).flatten ∧
      (∀ r ∈ stock.rows,
        mergeMatches (restrictCols prices needed) key stock.header r = [] →
        mergeRow (restrictCols prices needed) key
            (needed.filter (fun c => decide (c ≠ key))) stock.header r =
          [r ++ (needed.filter (fun c => decide (c ≠ key))).map (fun _ => Value.null)]) ∧
      (∀ r ∈ stock.rows, ∀ p,
        mergeMatches (restrictCols prices needed) key stock.header r = [p] →
        mergeRow (restrictCols prices needed) key
            (needed.filter (fun c => decide (c ≠ key))) stock.header r =
          [r ++ (needed.filter (fun c => decide (c ≠ key))).map
            (getCell (restrictCols prices needed).header p)]) ∧
      ((∀ r ∈ stock.rows,
          (mergeMatches (restrictCols prices needed) key stock.header r).length ≤ 1) →
        res.rows.length = stock.rows.length) := by
  have hEmpty : needed.isEmpty = false := by
    cases needed with
    | nil => exact absurd rfl hne
    | cons a l => rfl
  refine ⟨⟨stock.header ++ needed.filter (fun c => decide (c ≠ key)),
      (stock.rows.map
        (mergeRow (restrictCols prices needed) key
          (needed.filter (fun c => decide (c ≠ key))) stock.header)).flatten⟩,
    ?_, rfl, ?_, ?_, ?_⟩
  · unfold mergeTables
    simp only [hEmpty, Bool.false_eq_true, if_false, if_neg hkey, hprec,
      List.isEmpty_nil, if_true]
    rw [if_pos (show key ∈ stock.header ∧ key ∈ (restrictCols prices needed).header from
      ⟨hks, hkn⟩)]
  · intro r _ hm
    simp [mergeRow, hm]
  · intro r _ p hm
    simp [mergeRow, hm]
  · intro hall
    dsimp only
    rw [flatten_length_of_singletons, List.length_map]
    intro x hx
    rcases List.mem_map.1 hx with ⟨r, hr, rfl⟩
    exact mergeRow_length_one _ _ _ _ _ (hall r hr)

/-- Witness for C5: in the two-row example, SKU A (one match) appears
exactly once populated with its price 7, SKU B (no match) exactly once
with a null price. -/
theorem mergeTables_left_join_witness :
    mergeTables c5StockTable c5PricesTable (some ["SKU_CODE", "SalePrice"])
        (some "SKU_CODE") =
      .ok ⟨["SKU_CODE", "Qty", "SalePrice"],
        [[.str "A", .int 1, .int 7], [.str "B", .int 2, .null]]⟩ := by
  have h := mergeTables_left_join c5StockTable c5PricesTable ["SKU_CODE", "SalePrice"]
    "SKU_CODE" (by decide) (by decide) (by decide) (by decide) (by decide)
  exact rfl

/-- C8: `markup` validates the country and the two price columns, then
returns the element-wise series round(sale / vatDivisor / cost,
roundTo) computed from the input rows; the input table itself is never
written to (the embedding returns only the series).  The witness below
instantiates the specification's numeric example 150 / 1.2 / 100 =
1.25. -/
theorem markup_formula (df : Table) (costCol saleCol country : String) (vd : Rat)
    (roundTo : Nat) (hvc : vatDivisor country = some vd)
    (hcost : costCol ∈ df.header) (hsale : saleCol ∈ df.header) :
    markup df costCol saleCol country roundTo =
      .ok (df.rows.map (fun r =>
        Value.num (pyRound
          (ratOf (getCell df.header r saleCol) / vd / ratOf (getCell df.header r costCol))
          roundTo))) := by
  unfold markup
  rw [hvc]
  have hmiss : [costCol, saleCol].filter (fun c => decide (c ∉ df.header)) = [] :=
    List.filter_eq_nil_iff.mpr (by
      intro c hc
      simp only [List.mem_cons, List.mem_singleton, List.not_mem_nil, or_false] at hc
      rcases hc with rfl | rfl
      · simpa using hcost
      · simpa using hsale)
  simp only [hmiss, List.isEmpty_nil, if_true]
  rfl

/-- Witness for C8, the specification's numeric example: with
PurchasePrice 100, SalePrice 150, country BG (divisor 6/5 = 1.2) and
two decimals, markup returns 150 / 1.2 / 100 = 1.25. -/
theorem markup_formula_witness :
    markup c8Table "PurchasePrice" "SalePrice" "BG" 2 = .ok [Value.num (5 / 4)] := by
  have h := markup_formula c8Table "PurchasePrice" "SalePrice" "BG" (6 / 5) 2 rfl
    (by decide) (by decide)
  rw [h]
  rw [show (c8Table.rows.map (fun r =>
      Value.num (pyRound
        (ratOf (getCell c8Table.header r "SalePrice") / (6 / 5) /
          ratOf (getCell c8Table.header r "PurchasePrice")) 2))) =
    [Value.num (pyRound (((150 : Int) : Rat) / (6 / 5) / ((100 : Int) : Rat)) 2)] from rfl]
  norm_num [pyRound, roundHalfEven]

end WorkReports
